import Mathlib

/-!
Verification of the per-client transaction state machine of the mock
payments engine (`src/core.rs`).

The embedding follows the Rust source closely:
* `TransactionStatus`, `TransactionSide`, `TransactionInput`, `Transaction`
  and `User` mirror the types declared in `core.rs`.
* Rust's `HashMap<u32, Transaction>` is modelled as a `List Transaction`
  keyed by the `id` field: `HashMap::get` becomes `findTx` (first match) and
  the in-place mutation through `get_mut` becomes `updateFirst`, which
  rewrites exactly the first entry carrying the looked-up id.  Insertion of
  a fresh key becomes consing (the map's iteration order is irrelevant to
  the code: the balance queries fold a commutative sum over the values).
* Machine integers `u16`/`u32` become `Nat`, the tick amount `i32` becomes
  `Int`; no claim under study depends on fixed-width overflow.
* `process_tx_input` returns `Result<(), AppError>` and starts with an
  `assert!` on the client id; the embedding returns `Option StepOut` where
  `none` models the assertion panic and `StepOut` carries the `Result`
  value together with the post-state.
-/

inductive TransactionStatus where
  | Normal : TransactionStatus
  | Disputed : TransactionStatus
  | Solved : Bool → TransactionStatus
deriving DecidableEq, Repr

inductive TransactionSide where
  | Deposit : TransactionSide
  | Withdrawal : TransactionSide
deriving DecidableEq, Repr

/-- The decoded instruction fed to the core (`TransactionInput` in `core.rs`):
deposit/withdrawal carry `(id, client_id, amount)`, the dispute family
carries `(id, client_id)`. -/
inductive TransactionInput where
  | Deposit : Nat → Nat → Int → TransactionInput
  | Withdrawal : Nat → Nat → Int → TransactionInput
  | Dispute : Nat → Nat → TransactionInput
  | Resolve : Nat → Nat → TransactionInput
  | Chargeback : Nat → Nat → TransactionInput
deriving DecidableEq, Repr

/-- Embeds `TransactionInput::id` from `core.rs`. -/
def TransactionInput.id : TransactionInput → Nat
  | .Deposit i _ _ => i
  | .Withdrawal i _ _ => i
  | .Dispute i _ => i
  | .Resolve i _ => i
  | .Chargeback i _ => i

/-- Embeds `TransactionInput::client_id` from `core.rs`. -/
def TransactionInput.client_id : TransactionInput → Nat
  | .Deposit _ c _ => c
  | .Withdrawal _ c _ => c
  | .Dispute _ c => c
  | .Resolve _ c => c
  | .Chargeback _ c => c

/-- The ledger entry stored per transaction id (`Transaction` in `core.rs`). -/
structure Transaction where
  id : Nat
  client_id : Nat
  status : TransactionStatus
  side : TransactionSide
  amount : Int
deriving DecidableEq, Repr

/-- Embeds `Transaction::new` from `core.rs`: fresh entries start in `Normal` status. -/
def Transaction.new (id : Nat) (client_id : Nat) (side : TransactionSide)
    (amount : Int) : Transaction :=
  { id := id, client_id := client_id, status := .Normal, side := side, amount := amount }

/-- The per-client account (`User` in `core.rs`); the `HashMap` of ledger
entries is modelled as a list keyed by `Transaction.id`. -/
structure User where
  id : Nat
  locked : Bool
  transactions : List Transaction
deriving DecidableEq, Repr

/-- Embeds `User::new` from `core.rs`. -/
def User.new (id : Nat) : User :=
  { id := id, locked := false, transactions := [] }

/-- Embeds `self.transactions.get(&tx_id)`: first entry whose id matches. -/
def findTx (txs : List Transaction) (txId : Nat) : Option Transaction :=
  txs.find? (fun t => t.id == txId)

/-- The mutation reached through `get_mut(&tx_id)`: rewrite exactly the
first entry carrying `txId`, leave everything else in place. -/
def updateFirst (txId : Nat) (f : Transaction → Transaction) :
    List Transaction → List Transaction
  | [] => []
  | t :: ts => if t.id == txId then f t :: ts else t :: updateFirst txId f ts

/-- The fold in `User::available` before the final `.max(0)`. -/
def availableSum (txs : List Transaction) : Int :=
  txs.foldl (fun acc tx =>
    match tx.side, tx.status with
    | .Deposit, .Normal => acc + tx.amount
    | .Deposit, .Solved false => acc + tx.amount
    | .Withdrawal, .Normal => acc - tx.amount
    | .Withdrawal, .Solved false => acc - tx.amount
    | _, _ => acc) 0

/-- Embeds `User::available` from `core.rs`: the signed fold, floored at 0. -/
def User.available (u : User) : Int :=
  max (availableSum u.transactions) 0

/-- The fold in `User::held`. -/
def heldSum (txs : List Transaction) : Int :=
  txs.foldl (fun acc tx =>
    match tx.side, tx.status with
    | .Deposit, .Disputed => acc + tx.amount
    | _, _ => acc) 0

/-- Embeds `User::held` from `core.rs`. -/
def User.held (u : User) : Int :=
  heldSum u.transactions

/-- Embeds `User::total` from `core.rs`. -/
def User.total (u : User) : Int :=
  u.available + u.held

/-- The error type of the crate (`error.rs`); the core never constructs
one, but `process_tx_input`'s result channel is typed with it.  Payloads
irrelevant to the core are elided to the carried string where present. -/
inductive AppError where
  | MissingArgument : AppError
  | FileNotFound : String → AppError
  | InvalidFormat : String → AppError
  | InvalidRecord : String → AppError
  | InvalidTxType : String → AppError
deriving DecidableEq, Repr

/-- The return value of one `process_tx_input` call: the `Result` the Rust
function returns, together with the post-state of the account. -/
structure StepOut where
  result : Except AppError Unit
  state : User
deriving Repr

/-- The body of `User::process_tx_input` after the `assert!` guard: the
locked check, then the five-way match on `(tx, transactions.get_mut(&tx_id))`
from `core.rs`. -/
def processBody (u : User) (tx : TransactionInput) : User :=
  if u.locked then u
  else
    let txId := tx.id
    match tx, findTx u.transactions txId with
    | .Deposit id client_id amount, none =>
        { u with transactions :=
            Transaction.new id client_id .Deposit amount :: u.transactions }
    | .Withdrawal id client_id amount, none =>
        if u.available ≥ amount then
          { u with transactions :=
              Transaction.new id client_id .Withdrawal amount :: u.transactions }
        else u
    | .Dispute _ _, some found_tx =>
        if found_tx.side = .Deposit ∧ found_tx.status = .Normal then
          { u with transactions :=
              updateFirst txId (fun t => { t with status := .Disputed }) u.transactions }
        else u
    | .Resolve _ _, some found_tx =>
        if found_tx.status = .Disputed then
          { u with transactions :=
              updateFirst txId (fun t => { t with status := .Solved false }) u.transactions }
        else u
    | .Chargeback _ _, some found_tx =>
        if found_tx.status = .Disputed then
          { u with
              transactions :=
                updateFirst txId (fun t => { t with status := .Solved true }) u.transactions,
              locked := true }
        else u
    | _, _ => u

/-- Embeds `User::process_tx_input` from `core.rs`: the leading `assert!` that the
record's client id equals the account's id (panic modelled as `none`),
then the body; the function always answers `Ok(())`. -/
def User.process_tx_input (u : User) (tx : TransactionInput) : Option StepOut :=
  if tx.client_id = u.id then
    some { result := .ok (), state := processBody u tx }
  else
    none

/-- Replay of a record sequence through the state-machine body, as the
driver loop in `main.rs` does for one client. -/
def runAll (u : User) (txs : List TransactionInput) : User :=
  txs.foldl processBody u

/-- The spec's enumeration of inapplicable records (§7): duplicate id,
dispute/resolve/chargeback referencing a missing, wrong-side, or
wrong-status entry, withdrawal exceeding available funds, or any record
against a locked account. -/
def inapplicable (u : User) (tx : TransactionInput) : Prop :=
  u.locked = true ∨
    (match tx, findTx u.transactions tx.id with
     | .Deposit _ _ _, some _ => True
     | .Withdrawal _ _ _, some _ => True
     | .Withdrawal _ _ amount, none => u.available < amount
     | .Dispute _ _, none => True
     | .Dispute _ _, some t => ¬(t.side = .Deposit ∧ t.status = .Normal)
     | .Resolve _ _, none => True
     | .Resolve _ _, some t => t.status ≠ .Disputed
     | .Chargeback _ _, none => True
     | .Chargeback _ _, some t => t.status ≠ .Disputed
     | _, _ => False)

/-- Held funds as the spec words them (§4.2): the sum of the amounts of the
Deposit-side entries currently in Disputed status.  Stated independently of
the fold in `User::held`, to be compared with it. -/
def specHeld (txs : List Transaction) : Int :=
  ((txs.filter fun t => t.side == TransactionSide.Deposit
      && t.status == TransactionStatus.Disputed).map (fun t => t.amount)).sum

/-- One admissible move of an entry's lifecycle status: stay in place, or
advance one step along Normal → Disputed → Solved(_). -/
def statusStepOk (s s' : TransactionStatus) : Prop :=
  s' = s ∨ (s = .Normal ∧ s' = .Disputed) ∨ (s = .Disputed ∧ ∃ b, s' = .Solved b)

/-- Account states reachable from a fresh account by `process_tx_input`
calls that pass the client-id assertion. -/
inductive Reachable : User → Prop where
  | base (cid : Nat) : Reachable (User.new cid)
  | step {u : User} (tx : TransactionInput) (hc : tx.client_id = u.id) :
      Reachable u → Reachable (processBody u tx)

/-- Concrete account used to instantiate the theorems: client 1 holding a
single Normal deposit of 50000 ticks under transaction id 1. -/
def sampleUser : User :=
  { id := 1, locked := false,
    transactions := [{ id := 1, client_id := 1, status := .Normal,
                       side := .Deposit, amount := 50000 }] }

/-- Concrete account used to instantiate the theorems: client 1 holding a
single Disputed deposit of 50000 ticks under transaction id 1. -/
def sampleDisputedUser : User :=
  { id := 1, locked := false,
    transactions := [{ id := 1, client_id := 1, status := .Disputed,
                       side := .Deposit, amount := 50000 }] }

section Lemmas

/-- Cons step of `findTx` when the head matches. -/
lemma findTx_cons_pos {t : Transaction} {ts : List Transaction} {j : Nat}
    (h : t.id = j) : findTx (t :: ts) j = some t :=
  List.find?_cons_of_pos ts (by simp [h])

/-- Cons step of `findTx` when the head does not match. -/
lemma findTx_cons_neg {t : Transaction} {ts : List Transaction} {j : Nat}
    (h : t.id ≠ j) : findTx (t :: ts) j = findTx ts j :=
  List.find?_cons_of_neg ts (by simp [h])

/-- Looking up after `updateFirst`: the looked-up key sees the rewritten
first match, every other key is untouched, provided the rewrite preserves
the id field. -/
lemma findTx_updateFirst (l : List Transaction) (i j : Nat)
    (f : Transaction → Transaction) (hf : ∀ t, (f t).id = t.id) :
    findTx (updateFirst i f l) j =
      if j = i then Option.map f (findTx l i) else findTx l j := by
  induction l with
  | nil => simp [updateFirst, findTx]
  | cons t ts ih =>
    by_cases hti : t.id = i
    · rw [show updateFirst i f (t :: ts) = f t :: ts from by simp [updateFirst, hti]]
      by_cases hji : j = i
      · subst hji
        rw [if_pos rfl, findTx_cons_pos (by rw [hf, hti]), findTx_cons_pos hti]
        rfl
      · rw [if_neg hji, findTx_cons_neg (by rw [hf, hti]; exact fun h => hji h.symm),
          findTx_cons_neg (by rw [hti]; exact fun h => hji h.symm)]
    · rw [show updateFirst i f (t :: ts) = t :: updateFirst i f ts from by
        simp [updateFirst, hti]]
      by_cases htj : t.id = j
      · have hji : j ≠ i := fun h => hti (htj.trans h)
        rw [if_neg hji, findTx_cons_pos htj, findTx_cons_pos htj]
      · rw [findTx_cons_neg htj, ih, findTx_cons_neg hti, findTx_cons_neg htj]

/-- Every element of `updateFirst i f l` is an old element or the image
under `f` of the first entry keyed `i`. -/
lemma mem_updateFirst {l : List Transaction} {i : Nat}
    {f : Transaction → Transaction} {x : Transaction}
    (hx : x ∈ updateFirst i f l) :
    x ∈ l ∨ ∃ t, findTx l i = some t ∧ x = f t := by
  induction l with
  | nil => simp [updateFirst] at hx
  | cons t ts ih =>
    by_cases hti : t.id = i
    · rw [show updateFirst i f (t :: ts) = f t :: ts from by simp [updateFirst, hti]] at hx
      rcases List.mem_cons.mp hx with h | h
      · exact Or.inr ⟨t, findTx_cons_pos hti, h⟩
      · exact Or.inl (List.mem_cons_of_mem _ h)
    · rw [show updateFirst i f (t :: ts) = t :: updateFirst i f ts from by
        simp [updateFirst, hti]] at hx
      rcases List.mem_cons.mp hx with h | h
      · exact Or.inl (h ▸ List.mem_cons_self _ _)
      · rcases ih h with h' | ⟨t', ht', hx'⟩
        · exact Or.inl (List.mem_cons_of_mem _ h')
        · exact Or.inr ⟨t', by rw [findTx_cons_neg hti]; exact ht', hx'⟩

/-- A found entry is a member of the list. -/
lemma mem_of_findTx {l : List Transaction} {i : Nat} {t : Transaction}
    (h : findTx l i = some t) : t ∈ l :=
  List.mem_of_find?_eq_some h

end Lemmas

/-- No-op of the body on a locked account. -/
lemma processBody_locked {u : User} (tx : TransactionInput)
    (h : u.locked = true) : processBody u tx = u := by
  simp [processBody, h]

/-- C1: for every sequence of transaction records applied to a fresh
account, the derived query `available()` returns a value `>= 0`: the signed
sum is floored at zero. -/
theorem available_nonneg_after_replay (cid : Nat) (txs : List TransactionInput) :
    0 ≤ (runAll (User.new cid) txs).available :=
  le_max_right _ 0

/-- C2: on an account whose `locked` flag is set, `process_tx_input`
returns `Ok(())` with the account completely unchanged, for a record of any
kind, hence `available()`, `held()`, `total()`, the locked flag and the
transactions map are all exactly as before. -/
theorem locked_account_is_noop (u : User) (tx : TransactionInput)
    (hl : u.locked = true) (hc : tx.client_id = u.id) :
    u.process_tx_input tx = some { result := .ok (), state := u } ∧
    (processBody u tx).available = u.available ∧
    (processBody u tx).held = u.held ∧
    (processBody u tx).total = u.total ∧
    (processBody u tx).locked = u.locked ∧
    (processBody u tx).transactions = u.transactions := by
  rw [User.process_tx_input, if_pos hc, processBody_locked tx hl]
  exact ⟨rfl, rfl, rfl, rfl, rfl, rfl⟩

/-- Witness for C2 at a concrete locked account and a deposit record. -/
theorem locked_account_is_noop_witness :
    ({ id := 7, locked := true, transactions := [] } : User).locked = true ∧
    (TransactionInput.Deposit 1 7 50000).client_id =
      ({ id := 7, locked := true, transactions := [] } : User).id ∧
    ({ id := 7, locked := true, transactions := [] } : User).process_tx_input
        (.Deposit 1 7 50000) =
      some { result := .ok (),
             state := { id := 7, locked := true, transactions := [] } } :=
  ⟨rfl, rfl,
    (locked_account_is_noop { id := 7, locked := true, transactions := [] }
      (.Deposit 1 7 50000) rfl rfl).1⟩

/-- C9: `process_tx_input` panics (modelled as `none`) exactly when the
record's client id differs from the account's id — the assertion fires
before any state is read or changed, and under the precondition
`client_id = id` this branch is unreachable. -/
theorem client_id_assertion (u : User) (tx : TransactionInput) :
    u.process_tx_input tx = none ↔ tx.client_id ≠ u.id := by
  unfold User.process_tx_input
  by_cases hc : tx.client_id = u.id <;> simp [hc]

/-- C4: a withdrawal with a fresh transaction id whose amount exceeds the
current `available()` is a full no-op on an unlocked account: the result is
`Ok(())`, the entry is not inserted, and `available()`, `held()` and the
transactions map are exactly as before. -/
theorem overdraft_withdrawal_is_noop (u : User) (i c : Nat) (amount : Int)
    (hl : u.locked = false) (hc : c = u.id)
    (hf : findTx u.transactions i = none)
    (ha : u.available < amount) :
    u.process_tx_input (.Withdrawal i c amount) =
      some { result := .ok (), state := u } := by
  rw [User.process_tx_input,
    if_pos (show (TransactionInput.Withdrawal i c amount).client_id = u.id from hc)]
  have hbody : processBody u (.Withdrawal i c amount) = u := by
    rw [processBody, if_neg (by simp [hl])]
    simp only [TransactionInput.id, hf]
    rw [if_neg (not_le.mpr ha)]
  rw [hbody]

/-- Witness for C4: empty fresh account, withdrawal of 5 ticks against 0
available. -/
theorem overdraft_withdrawal_is_noop_witness :
    (User.new 3).locked = false ∧
    findTx (User.new 3).transactions 1 = none ∧
    (User.new 3).available < 5 ∧
    (User.new 3).process_tx_input (.Withdrawal 1 3 5) =
      some { result := .ok (), state := User.new 3 } :=
  ⟨rfl, rfl, by decide,
    overdraft_withdrawal_is_noop (User.new 3) 1 3 5 rfl rfl rfl (by decide)⟩

/-- Deposit with a fresh id: the entry is inserted in `Normal` status. -/
lemma processBody_deposit_none {u : User} {i c : Nat} {a : Int}
    (hl : u.locked = false) (hf : findTx u.transactions i = none) :
    processBody u (.Deposit i c a) =
      { u with transactions := Transaction.new i c .Deposit a :: u.transactions } := by
  simp [processBody, hl, TransactionInput.id, hf]

/-- Deposit reusing an existing id: no-op. -/
lemma processBody_deposit_some {u : User} {i c : Nat} {a : Int} {t : Transaction}
    (hl : u.locked = false) (hf : findTx u.transactions i = some t) :
    processBody u (.Deposit i c a) = u := by
  simp [processBody, hl, TransactionInput.id, hf]

/-- Withdrawal with a fresh id and sufficient funds: inserted in `Normal`. -/
lemma processBody_withdrawal_ok {u : User} {i c : Nat} {a : Int}
    (hl : u.locked = false) (hf : findTx u.transactions i = none)
    (hge : u.available ≥ a) :
    processBody u (.Withdrawal i c a) =
      { u with transactions := Transaction.new i c .Withdrawal a :: u.transactions } := by
  simp [processBody, hl, TransactionInput.id, hf, hge]

/-- Withdrawal with a fresh id but insufficient funds: no-op. -/
lemma processBody_withdrawal_insufficient {u : User} {i c : Nat} {a : Int}
    (hl : u.locked = false) (hf : findTx u.transactions i = none)
    (hlt : u.available < a) :
    processBody u (.Withdrawal i c a) = u := by
  simp [processBody, hl, TransactionInput.id, hf, not_le.mpr hlt]

/-- Withdrawal reusing an existing id: no-op. -/
lemma processBody_withdrawal_some {u : User} {i c : Nat} {a : Int} {t : Transaction}
    (hl : u.locked = false) (hf : findTx u.transactions i = some t) :
    processBody u (.Withdrawal i c a) = u := by
  simp [processBody, hl, TransactionInput.id, hf]

/-- Dispute of a missing entry: no-op. -/
lemma processBody_dispute_none {u : User} {i c : Nat}
    (hl : u.locked = false) (hf : findTx u.transactions i = none) :
    processBody u (.Dispute i c) = u := by
  simp [processBody, hl, TransactionInput.id, hf]

/-- Dispute of a Normal Deposit-side entry: its status moves to Disputed. -/
lemma processBody_dispute_hit {u : User} {i c : Nat} {t : Transaction}
    (hl : u.locked = false) (hf : findTx u.transactions i = some t)
    (hside : t.side = .Deposit) (hstat : t.status = .Normal) :
    processBody u (.Dispute i c) =
      { u with transactions :=
          updateFirst i (fun s => { s with status := .Disputed }) u.transactions } := by
  simp [processBody, hl, TransactionInput.id, hf, hside, hstat]

/-- Dispute of a wrong-side or wrong-status entry: no-op. -/
lemma processBody_dispute_miss {u : User} {i c : Nat} {t : Transaction}
    (hl : u.locked = false) (hf : findTx u.transactions i = some t)
    (hmiss : ¬(t.side = .Deposit ∧ t.status = .Normal)) :
    processBody u (.Dispute i c) = u := by
  simp [processBody, hl, TransactionInput.id, hf, hmiss]

/-- Resolve of a missing entry: no-op. -/
lemma processBody_resolve_none {u : User} {i c : Nat}
    (hl : u.locked = false) (hf : findTx u.transactions i = none) :
    processBody u (.Resolve i c) = u := by
  simp [processBody, hl, TransactionInput.id, hf]

/-- Resolve of a Disputed entry: its status moves to Solved(false). -/
lemma processBody_resolve_hit {u : User} {i c : Nat} {t : Transaction}
    (hl : u.locked = false) (hf : findTx u.transactions i = some t)
    (hstat : t.status = .Disputed) :
    processBody u (.Resolve i c) =
      { u with transactions :=
          updateFirst i (fun s => { s with status := .Solved false }) u.transactions } := by
  simp [processBody, hl, TransactionInput.id, hf, hstat]

/-- Resolve of a non-Disputed entry: no-op. -/
lemma processBody_resolve_miss {u : User} {i c : Nat} {t : Transaction}
    (hl : u.locked = false) (hf : findTx u.transactions i = some t)
    (hstat : t.status ≠ .Disputed) :
    processBody u (.Resolve i c) = u := by
  simp [processBody, hl, TransactionInput.id, hf, hstat]

/-- Chargeback of a missing entry: no-op. -/
lemma processBody_chargeback_none {u : User} {i c : Nat}
    (hl : u.locked = false) (hf : findTx u.transactions i = none) :
    processBody u (.Chargeback i c) = u := by
  simp [processBody, hl, TransactionInput.id, hf]

/-- Chargeback of a Disputed entry: status moves to Solved(true) and the
account is locked. -/
lemma processBody_chargeback_hit {u : User} {i c : Nat} {t : Transaction}
    (hl : u.locked = false) (hf : findTx u.transactions i = some t)
    (hstat : t.status = .Disputed) :
    processBody u (.Chargeback i c) =
      { u with
          transactions :=
            updateFirst i (fun s => { s with status := .Solved true }) u.transactions,
          locked := true } := by
  simp [processBody, hl, TransactionInput.id, hf, hstat]

/-- Chargeback of a non-Disputed entry: no-op. -/
lemma processBody_chargeback_miss {u : User} {i c : Nat} {t : Transaction}
    (hl : u.locked = false) (hf : findTx u.transactions i = some t)
    (hstat : t.status ≠ .Disputed) :
    processBody u (.Chargeback i c) = u := by
  simp [processBody, hl, TransactionInput.id, hf, hstat]

/-- The `held` fold from any accumulator: it adds exactly the spec's sum of
Disputed Deposit-side amounts. -/
lemma heldSum_fold (txs : List Transaction) (a : Int) :
    txs.foldl (fun acc tx =>
      match tx.side, tx.status with
      | .Deposit, .Disputed => acc + tx.amount
      | _, _ => acc) a = a + specHeld txs := by
  induction txs generalizing a with
  | nil => simp [specHeld]
  | cons t ts ih =>
    rw [List.foldl_cons, ih]
    cases hside : t.side <;> cases hstat : t.status <;>
      simp [specHeld, List.filter_cons, hside, hstat, add_assoc]

/-- C7: `held()` equals exactly the sum of the amounts of the entries whose
side is Deposit and whose status is Disputed; every other entry contributes
zero. -/
theorem held_matches_spec (u : User) : u.held = specHeld u.transactions := by
  simpa [User.held, heldSum] using heldSum_fold u.transactions 0

/-- An inapplicable record leaves the account state untouched. -/
lemma processBody_of_inapplicable (u : User) (tx : TransactionInput)
    (h : inapplicable u tx) : processBody u tx = u := by
  rcases h with hlk | h
  · exact processBody_locked tx hlk
  · by_cases hl : u.locked = true
    · exact processBody_locked tx hl
    · have hl' : u.locked = false := by simpa using hl
      cases tx with
      | Deposit i c a =>
        simp only [TransactionInput.id] at h
        rcases hfind : findTx u.transactions i with _ | found
        · rw [hfind] at h
          simp at h
        · exact processBody_deposit_some hl' hfind
      | Withdrawal i c a =>
        simp only [TransactionInput.id] at h
        rcases hfind : findTx u.transactions i with _ | found
        · rw [hfind] at h
          simp only at h
          exact processBody_withdrawal_insufficient hl' hfind h
        · exact processBody_withdrawal_some hl' hfind
      | Dispute i c =>
        simp only [TransactionInput.id] at h
        rcases hfind : findTx u.transactions i with _ | found
        · exact processBody_dispute_none hl' hfind
        · rw [hfind] at h
          simp only at h
          exact processBody_dispute_miss hl' hfind h
      | Resolve i c =>
        simp only [TransactionInput.id] at h
        rcases hfind : findTx u.transactions i with _ | found
        · exact processBody_resolve_none hl' hfind
        · rw [hfind] at h
          simp only at h
          exact processBody_resolve_miss hl' hfind h
      | Chargeback i c =>
        simp only [TransactionInput.id] at h
        rcases hfind : findTx u.transactions i with _ | found
        · exact processBody_chargeback_none hl' hfind
        · rw [hfind] at h
          simp only at h
          exact processBody_chargeback_miss hl' hfind h

/-- C3: for a record carrying the account's own client id,
`process_tx_input` always returns `Ok(())` — never an error value — and on
any inapplicable record (duplicate id, dispute/resolve/chargeback against a
missing, wrong-side or wrong-status entry, overdraft withdrawal, locked
account) the post-state is exactly the pre-state. -/
theorem process_never_errors_and_drops (u : User) (tx : TransactionInput)
    (hc : tx.client_id = u.id) :
    u.process_tx_input tx = some { result := .ok (), state := processBody u tx } ∧
    (inapplicable u tx →
      u.process_tx_input tx = some { result := .ok (), state := u }) := by
  constructor
  · rw [User.process_tx_input, if_pos hc]
  · intro h
    rw [User.process_tx_input, if_pos hc, processBody_of_inapplicable u tx h]

/-- Witness for C3: a dispute referencing an id absent from a fresh
account's map is inapplicable and leaves the account untouched. -/
theorem process_never_errors_and_drops_witness :
    (TransactionInput.Dispute 9 4).client_id = (User.new 4).id ∧
    ((User.new 4).process_tx_input (.Dispute 9 4) =
        some { result := .ok (), state := processBody (User.new 4) (.Dispute 9 4) } ∧
      (inapplicable (User.new 4) (.Dispute 9 4) →
        (User.new 4).process_tx_input (.Dispute 9 4) =
          some { result := .ok (), state := User.new 4 })) :=
  ⟨rfl, process_never_errors_and_drops (User.new 4) (.Dispute 9 4) rfl⟩


/-- C5: on an unlocked account a Dispute record moves the referenced
entry's status to Disputed exactly when that entry exists with side
Deposit and status Normal (and touches no other key); a Dispute against a
Withdrawal-side entry, a missing entry, or an entry of any other status
changes nothing. -/
theorem dispute_sets_disputed_iff (u : User) (i c : Nat)
    (hl : u.locked = false) :
    (∀ t, findTx u.transactions i = some t → t.side = .Deposit →
      t.status = .Normal →
      processBody u (.Dispute i c) =
        { u with transactions :=
            updateFirst i (fun s => { s with status := .Disputed }) u.transactions } ∧
      findTx (processBody u (.Dispute i c)).transactions i =
        some { t with status := .Disputed } ∧
      ∀ j, j ≠ i →
        findTx (processBody u (.Dispute i c)).transactions j =
          findTx u.transactions j) ∧
    (∀ t, findTx u.transactions i = some t →
      t.side = .Withdrawal ∨ t.status ≠ .Normal →
      processBody u (.Dispute i c) = u) ∧
    (findTx u.transactions i = none → processBody u (.Dispute i c) = u) := by
  refine ⟨fun t hf hside hstat => ?_, fun t hf hor => ?_, fun hf => ?_⟩
  · have hbody := @processBody_dispute_hit u i c t hl hf hside hstat
    refine ⟨hbody, ?_, fun j hj => ?_⟩
    · rw [hbody]
      rw [findTx_updateFirst u.transactions i i
        (fun s => { s with status := .Disputed }) (fun s => rfl), if_pos rfl, hf]
      rfl
    · rw [hbody]
      rw [findTx_updateFirst u.transactions i j
        (fun s => { s with status := .Disputed }) (fun s => rfl), if_neg hj]
  · refine processBody_dispute_miss hl hf ?_
    rintro ⟨hd, hn⟩
    rcases hor with hw | hs
    · rw [hw] at hd
      exact TransactionSide.noConfusion hd
    · exact hs hn
  · exact processBody_dispute_none hl hf

/-- Witness for C5 on `sampleUser`, whose map holds one Normal deposit. -/
theorem dispute_sets_disputed_iff_witness :
    sampleUser.locked = false ∧
    ((∀ t, findTx sampleUser.transactions 1 = some t → t.side = .Deposit →
      t.status = .Normal →
      processBody sampleUser (.Dispute 1 1) =
        { sampleUser with transactions := updateFirst 1 (fun s => { s with status := .Disputed }) sampleUser.transactions } ∧
      findTx (processBody sampleUser (.Dispute 1 1)).transactions 1 =
        some { t with status := .Disputed } ∧
      ∀ j, j ≠ 1 →
        findTx (processBody sampleUser (.Dispute 1 1)).transactions j =
          findTx sampleUser.transactions j) ∧
    (∀ t, findTx sampleUser.transactions 1 = some t →
      t.side = .Withdrawal ∨ t.status ≠ .Normal →
      processBody sampleUser (.Dispute 1 1) = sampleUser) ∧
    (findTx sampleUser.transactions 1 = none →
      processBody sampleUser (.Dispute 1 1) = sampleUser)) :=
  ⟨rfl, dispute_sets_disputed_iff sampleUser 1 1 rfl⟩

/-- Projection of the record-update used throughout `processBody`. -/
lemma User_mk_transactions (a : Nat) (b : Bool) (l : List Transaction) :
    (User.mk a b l).transactions = l := rfl

/-- C6: one `processBody` step moves every entry's status only forward
along Normal → Disputed → Solved(_): an entry present after the step was
either already present with a status that stayed put or advanced one legal
step (in particular a Solved entry never changes), or is freshly inserted
in Normal status. -/
theorem status_moves_forward (u : User) (tx : TransactionInput) (j : Nat)
    (t' : Transaction)
    (h' : findTx (processBody u tx).transactions j = some t') :
    (∃ t, findTx u.transactions j = some t ∧ statusStepOk t.status t'.status) ∨
      (findTx u.transactions j = none ∧ t'.status = .Normal) := by
  by_cases hl : u.locked = true
  · rw [processBody_locked tx hl] at h'
    exact Or.inl ⟨t', h', Or.inl rfl⟩
  · have hl' : u.locked = false := by simpa using hl
    cases tx with
    | Deposit i c a =>
      rcases hfind : findTx u.transactions i with _ | found
      · rw [processBody_deposit_none hl' hfind] at h'
        rw [User_mk_transactions] at h'
        by_cases hij : i = j
        · subst hij
          rw [findTx_cons_pos
            (show (Transaction.new i c TransactionSide.Deposit a).id = i from rfl)] at h'
          cases h'
          exact Or.inr ⟨hfind, rfl⟩
        · rw [findTx_cons_neg hij] at h'
          exact Or.inl ⟨t', h', Or.inl rfl⟩
      · rw [processBody_deposit_some hl' hfind] at h'
        exact Or.inl ⟨t', h', Or.inl rfl⟩
    | Withdrawal i c a =>
      rcases hfind : findTx u.transactions i with _ | found
      · by_cases hge : u.available ≥ a
        · rw [processBody_withdrawal_ok hl' hfind hge] at h'
          rw [User_mk_transactions] at h'
          by_cases hij : i = j
          · subst hij
            rw [findTx_cons_pos
              (show (Transaction.new i c TransactionSide.Withdrawal a).id = i from rfl)] at h'
            cases h'
            exact Or.inr ⟨hfind, rfl⟩
          · rw [findTx_cons_neg hij] at h'
            exact Or.inl ⟨t', h', Or.inl rfl⟩
        · rw [processBody_withdrawal_insufficient hl' hfind (not_le.mp hge)] at h'
          exact Or.inl ⟨t', h', Or.inl rfl⟩
      · rw [processBody_withdrawal_some hl' hfind] at h'
        exact Or.inl ⟨t', h', Or.inl rfl⟩
    | Dispute i c =>
      rcases hfind : findTx u.transactions i with _ | found
      · rw [processBody_dispute_none hl' hfind] at h'
        exact Or.inl ⟨t', h', Or.inl rfl⟩
      · by_cases hcond : found.side = .Deposit ∧ found.status = .Normal
        · rw [processBody_dispute_hit hl' hfind hcond.1 hcond.2] at h'
          rw [User_mk_transactions] at h'
          rw [findTx_updateFirst u.transactions i j
            (fun s => { s with status := .Disputed }) (fun s => rfl)] at h'
          by_cases hji : j = i
          · subst hji
            rw [if_pos rfl, hfind] at h'
            cases h'
            exact Or.inl ⟨found, hfind, Or.inr (Or.inl ⟨hcond.2, rfl⟩)⟩
          · rw [if_neg hji] at h'
            exact Or.inl ⟨t', h', Or.inl rfl⟩
        · rw [processBody_dispute_miss hl' hfind hcond] at h'
          exact Or.inl ⟨t', h', Or.inl rfl⟩
    | Resolve i c =>
      rcases hfind : findTx u.transactions i with _ | found
      · rw [processBody_resolve_none hl' hfind] at h'
        exact Or.inl ⟨t', h', Or.inl rfl⟩
      · by_cases hcond : found.status = .Disputed
        · rw [processBody_resolve_hit hl' hfind hcond] at h'
          rw [User_mk_transactions] at h'
          rw [findTx_updateFirst u.transactions i j
            (fun s => { s with status := .Solved false }) (fun s => rfl)] at h'
          by_cases hji : j = i
          · subst hji
            rw [if_pos rfl, hfind] at h'
            cases h'
            exact Or.inl ⟨found, hfind, Or.inr (Or.inr ⟨hcond, false, rfl⟩)⟩
          · rw [if_neg hji] at h'
            exact Or.inl ⟨t', h', Or.inl rfl⟩
        · rw [processBody_resolve_miss hl' hfind hcond] at h'
          exact Or.inl ⟨t', h', Or.inl rfl⟩
    | Chargeback i c =>
      rcases hfind : findTx u.transactions i with _ | found
      · rw [processBody_chargeback_none hl' hfind] at h'
        exact Or.inl ⟨t', h', Or.inl rfl⟩
      · by_cases hcond : found.status = .Disputed
        · rw [processBody_chargeback_hit hl' hfind hcond] at h'
          rw [User_mk_transactions] at h'
          rw [findTx_updateFirst u.transactions i j
            (fun s => { s with status := .Solved true }) (fun s => rfl)] at h'
          by_cases hji : j = i
          · subst hji
            rw [if_pos rfl, hfind] at h'
            cases h'
            exact Or.inl ⟨found, hfind, Or.inr (Or.inr ⟨hcond, true, rfl⟩)⟩
          · rw [if_neg hji] at h'
            exact Or.inl ⟨t', h', Or.inl rfl⟩
        · rw [processBody_chargeback_miss hl' hfind hcond] at h'
          exact Or.inl ⟨t', h', Or.inl rfl⟩

/-- Witness for C6: disputing the Normal deposit of `sampleUser` moves its
entry from Normal to Disputed. -/
theorem status_moves_forward_witness :
    findTx (processBody sampleUser (.Dispute 1 1)).transactions 1 =
      some { id := 1, client_id := 1, status := .Disputed,
             side := .Deposit, amount := 50000 } ∧
    ((∃ t, findTx sampleUser.transactions 1 = some t ∧
        statusStepOk t.status
          ({ id := 1, client_id := 1, status := .Disputed,
             side := .Deposit, amount := 50000 } : Transaction).status) ∨
      (findTx sampleUser.transactions 1 = none ∧
        ({ id := 1, client_id := 1, status := .Disputed,
           side := .Deposit, amount := 50000 } : Transaction).status = .Normal)) :=
  ⟨by decide, status_moves_forward sampleUser (.Dispute 1 1) 1
    { id := 1, client_id := 1, status := .Disputed,
      side := .Deposit, amount := 50000 } (by decide)⟩

/-- C8: applying the same Resolve or Chargeback record twice in a row
yields exactly the account state (locked flag and transactions map) of
applying it once. -/
theorem resolve_chargeback_idempotent (u : User) (i c : Nat)
    (tx : TransactionInput)
    (h : tx = .Resolve i c ∨ tx = .Chargeback i c) :
    processBody (processBody u tx) tx = processBody u tx := by
  rcases h with h | h <;> subst h
  · by_cases hl : u.locked = true
    · rw [processBody_locked _ hl, processBody_locked _ hl]
    · have hl' : u.locked = false := by simpa using hl
      rcases hfind : findTx u.transactions i with _ | found
      · rw [processBody_resolve_none hl' hfind, processBody_resolve_none hl' hfind]
      · by_cases hst : found.status = .Disputed
        · rw [processBody_resolve_hit hl' hfind hst]
          have hf2 : findTx (updateFirst i
              (fun s => { s with status := .Solved false }) u.transactions) i =
              some { found with status := .Solved false } := by
            rw [findTx_updateFirst u.transactions i i
              (fun s => { s with status := .Solved false }) (fun s => rfl),
              if_pos rfl, hfind]
            rfl
          exact processBody_resolve_miss hl' hf2 (by simp)
        · rw [processBody_resolve_miss hl' hfind hst,
            processBody_resolve_miss hl' hfind hst]
  · by_cases hl : u.locked = true
    · rw [processBody_locked _ hl, processBody_locked _ hl]
    · have hl' : u.locked = false := by simpa using hl
      rcases hfind : findTx u.transactions i with _ | found
      · rw [processBody_chargeback_none hl' hfind,
          processBody_chargeback_none hl' hfind]
      · by_cases hst : found.status = .Disputed
        · rw [processBody_chargeback_hit hl' hfind hst]
          exact processBody_locked _ rfl
        · rw [processBody_chargeback_miss hl' hfind hst,
            processBody_chargeback_miss hl' hfind hst]

/-- Witness for C8: resolving the disputed deposit of
`sampleDisputedUser` twice equals resolving it once. -/
theorem resolve_chargeback_idempotent_witness :
    ((TransactionInput.Resolve 1 1 : TransactionInput) = .Resolve 1 1 ∨
      (TransactionInput.Resolve 1 1 : TransactionInput) = .Chargeback 1 1) ∧
    processBody (processBody sampleDisputedUser (.Resolve 1 1)) (.Resolve 1 1) =
      processBody sampleDisputedUser (.Resolve 1 1) :=
  ⟨Or.inl rfl,
    resolve_chargeback_idempotent sampleDisputedUser 1 1 (.Resolve 1 1) (Or.inl rfl)⟩

/-- C10: in every state reachable from a fresh account, every
Withdrawal-side entry still has status Normal — a withdrawal can never be
disputed, hence never solved. -/
theorem withdrawal_entries_stay_normal (u : User) (h : Reachable u) :
    ∀ t ∈ u.transactions, t.side = .Withdrawal → t.status = .Normal := by
  induction h with
  | base cid =>
    intro t ht
    simp [User.new] at ht
  | @step u' tx hc hr ih =>
    intro t ht hside
    by_cases hl : u'.locked = true
    · rw [processBody_locked tx hl] at ht
      exact ih t ht hside
    · have hl' : u'.locked = false := by simpa using hl
      cases tx with
      | Deposit i c a =>
        rcases hfind : findTx u'.transactions i with _ | found
        · rw [processBody_deposit_none hl' hfind, User_mk_transactions] at ht
          rcases List.mem_cons.mp ht with h1 | h1
          · subst h1
            rfl
          · exact ih t h1 hside
        · rw [processBody_deposit_some hl' hfind] at ht
          exact ih t ht hside
      | Withdrawal i c a =>
        rcases hfind : findTx u'.transactions i with _ | found
        · by_cases hge : u'.available ≥ a
          · rw [processBody_withdrawal_ok hl' hfind hge, User_mk_transactions] at ht
            rcases List.mem_cons.mp ht with h1 | h1
            · subst h1
              rfl
            · exact ih t h1 hside
          · rw [processBody_withdrawal_insufficient hl' hfind (not_le.mp hge)] at ht
            exact ih t ht hside
        · rw [processBody_withdrawal_some hl' hfind] at ht
          exact ih t ht hside
      | Dispute i c =>
        rcases hfind : findTx u'.transactions i with _ | found
        · rw [processBody_dispute_none hl' hfind] at ht
          exact ih t ht hside
        · by_cases hcond : found.side = .Deposit ∧ found.status = .Normal
          · rw [processBody_dispute_hit hl' hfind hcond.1 hcond.2,
              User_mk_transactions] at ht
            rcases mem_updateFirst ht with h1 | ⟨t0, ht0, rfl⟩
            · exact ih t h1 hside
            · rw [hfind] at ht0
              cases ht0
              exact TransactionSide.noConfusion (hcond.1.symm.trans hside)
          · rw [processBody_dispute_miss hl' hfind hcond] at ht
            exact ih t ht hside
      | Resolve i c =>
        rcases hfind : findTx u'.transactions i with _ | found
        · rw [processBody_resolve_none hl' hfind] at ht
          exact ih t ht hside
        · by_cases hst : found.status = .Disputed
          · rw [processBody_resolve_hit hl' hfind hst, User_mk_transactions] at ht
            rcases mem_updateFirst ht with h1 | ⟨t0, ht0, rfl⟩
            · exact ih t h1 hside
            · rw [hfind] at ht0
              cases ht0
              have hnorm := ih found (mem_of_findTx hfind) hside
              rw [hst] at hnorm
              exact TransactionStatus.noConfusion hnorm
          · rw [processBody_resolve_miss hl' hfind hst] at ht
            exact ih t ht hside
      | Chargeback i c =>
        rcases hfind : findTx u'.transactions i with _ | found
        · rw [processBody_chargeback_none hl' hfind] at ht
          exact ih t ht hside
        · by_cases hst : found.status = .Disputed
          · rw [processBody_chargeback_hit hl' hfind hst, User_mk_transactions] at ht
            rcases mem_updateFirst ht with h1 | ⟨t0, ht0, rfl⟩
            · exact ih t h1 hside
            · rw [hfind] at ht0
              cases ht0
              have hnorm := ih found (mem_of_findTx hfind) hside
              rw [hst] at hnorm
              exact TransactionStatus.noConfusion hnorm
          · rw [processBody_chargeback_miss hl' hfind hst] at ht
            exact ih t ht hside

/-- Witness for C10 at the state reached by depositing 50000 then
withdrawing 30000: the concrete withdrawal entry is in the map,
Withdrawal-side, and indeed still Normal. -/
theorem withdrawal_entries_stay_normal_witness :
    ({ id := 2, client_id := 1, status := .Normal, side := .Withdrawal,
       amount := 30000 } : Transaction) ∈
      (processBody (processBody (User.new 1) (.Deposit 1 1 50000))
        (.Withdrawal 2 1 30000)).transactions ∧
    ({ id := 2, client_id := 1, status := .Normal, side := .Withdrawal,
       amount := 30000 } : Transaction).side = .Withdrawal ∧
    ({ id := 2, client_id := 1, status := .Normal, side := .Withdrawal,
       amount := 30000 } : Transaction).status = .Normal :=
  ⟨by decide, rfl,
    withdrawal_entries_stay_normal _
      (Reachable.step (.Withdrawal 2 1 30000) rfl
        (Reachable.step (.Deposit 1 1 50000) rfl (Reachable.base 1)))
      { id := 2, client_id := 1, status := .Normal, side := .Withdrawal,
        amount := 30000 } (by decide) rfl⟩
